import Mathlib

/-!
Verification development for the go-manus agent runtime.

Shallow embedding of the core components of the repository:
  schema (Message, Memory, AgentState, ToolCall), the BaseAgent Run loop
  and stuck detector, the ToolCallAgent Think/Act protocol, the tool
  registry dispatch, and the planning tool / planning flow step marking.

Conventions of the embedding:
  * Go slices become Lean lists; Go maps become association lists.
  * Go `interface{}` values carried in tool argument maps become the
    inductive `GoValue`, which keeps the dynamic type tag so that Go type
    assertions (`v.(float64)`, `v.(string)`, ...) are modelled exactly:
    an assertion against the wrong tag fails, exactly as in Go.
  * Go errors become `Option String` (none = nil) or `Except`.
  * External effects (the LLM call, JSON decoding, file persistence) are
    parameters of the functions that use them; persistence of plans is
    recorded in an explicit `savedLog` so that "was persisted" is a
    provable statement.
  * The mutual-exclusion locks guard nothing in a sequential semantics and
    are dropped; counters use `Nat` (all configured values in the
    repository are non-negative).
-/

namespace GoManus

/-- Dynamic Go value as stored in a `map[string]interface{}` argument map.
`int` and `num` are kept distinct: `int` is a Go `int`, `num` is a Go
`float64` (JSON numbers decode to `float64`).  All `float64` values that
occur in the modelled code paths are integral, so the payload is `Int`. -/
inductive GoValue where
  | str (s : String)
  | int (n : Int)
  | num (n : Int)
  | bool (b : Bool)
  | list (xs : List GoValue)
  | null

/-- Decoded tool argument map (`map[string]interface{}` in Go). -/
abbrev Args := List (String × GoValue)

/-- Go type assertion `v.(string)`. -/
def GoValue.asString : GoValue → Option String
  | .str s => some s
  | _ => none

/-- Go type assertion `v.(float64)`: succeeds only on a `float64` value. -/
def GoValue.asFloat : GoValue → Option Int
  | .num n => some n
  | _ => none

/-- Go type assertion `v.(int)`: succeeds only on a Go `int` value. -/
def GoValue.asInt : GoValue → Option Int
  | .int n => some n
  | _ => none

/-- Go type assertion `v.([]interface\x7b\x7d)`. -/
def GoValue.asList : GoValue → Option (List GoValue)
  | .list xs => some xs
  | _ => none

/-! ## schema: messages, tool calls, memory (schema/message.go) -/

/-- `schema.MessageRole`. -/
inductive MessageRole where
  | system
  | user
  | assistant
  | tool
deriving DecidableEq, Repr

/-- `schema.Function`. -/
structure FunctionCall where
  name : String
  arguments : String
deriving DecidableEq, Repr

/-- `schema.ToolCall`. -/
structure ToolCall where
  id : String
  type : String
  function : FunctionCall
deriving DecidableEq, Repr

/-- `schema.Message`. -/
structure Message where
  role : MessageRole
  content : Option String
  toolCalls : List ToolCall
  name : Option String
  toolCallID : Option String
deriving DecidableEq, Repr

/-- `schema.NewUserMessage`. -/
def Message.newUser (content : String) : Message :=
  { role := .user, content := some content, toolCalls := [], name := none, toolCallID := none }

/-- `schema.NewSystemMessage`. -/
def Message.newSystem (content : String) : Message :=
  { role := .system, content := some content, toolCalls := [], name := none, toolCallID := none }

/-- `schema.NewAssistantMessage`. -/
def Message.newAssistant (content : String) : Message :=
  { role := .assistant, content := some content, toolCalls := [], name := none, toolCallID := none }

/-- `schema.NewToolMessage`. -/
def Message.newTool (content : String) (name : String) (toolCallID : String) : Message :=
  { role := .tool, content := some content, toolCalls := [], name := some name,
    toolCallID := some toolCallID }

/-- `schema.NewMessageFromToolCalls`: assistant message carrying tool calls;
content is set only when non-empty. -/
def Message.fromToolCalls (content : String) (toolCalls : List ToolCall) : Message :=
  { role := .assistant,
    content := if content = "" then none else some content,
    toolCalls := toolCalls, name := none, toolCallID := none }

/-- `schema.Memory`. -/
structure Memory where
  messages : List Message
  maxMessages : Nat
deriving DecidableEq, Repr

/-- `schema.NewMemory`: empty, capacity 100. -/
def Memory.new : Memory := { messages := [], maxMessages := 100 }

/-- `Memory.AddMessage`: append, then evict the oldest messages when the
capacity is exceeded (`m.Messages = m.Messages[len-max:]`). -/
def Memory.addMessage (m : Memory) (msg : Message) : Memory :=
  let msgs := m.messages ++ [msg]
  if m.maxMessages < msgs.length then
    { m with messages := msgs.drop (msgs.length - m.maxMessages) }
  else
    { m with messages := msgs }

/-- `Memory.AddMessages`: append many, then evict the oldest messages when
the capacity is exceeded. -/
def Memory.addMessages (m : Memory) (newMsgs : List Message) : Memory :=
  let msgs := m.messages ++ newMsgs
  if m.maxMessages < msgs.length then
    { m with messages := msgs.drop (msgs.length - m.maxMessages) }
  else
    { m with messages := msgs }

/-- One mutation of a `Memory`, for stating the capacity invariant. -/
inductive MemOp where
  | add (msg : Message)
  | addMany (msgs : List Message)

/-- The messages an operation appends. -/
def MemOp.payload : MemOp → List Message
  | .add msg => [msg]
  | .addMany msgs => msgs

/-- Apply one memory operation. -/
def Memory.applyOp (m : Memory) : MemOp → Memory
  | .add msg => m.addMessage msg
  | .addMany msgs => m.addMessages msgs

/-- Apply a sequence of memory operations in order. -/
def Memory.applyOps (m : Memory) (ops : List MemOp) : Memory :=
  ops.foldl Memory.applyOp m

/-- The suffix of the last `n` elements (all of `l` when `l` is shorter). -/
def lastN (n : Nat) (l : List α) : List α :=
  l.drop (l.length - n)

/-! ## schema.AgentState and the agent record (agent/base.go) -/

/-- `schema.AgentState`: the Go type is a string; the four constants used
by the code become an enum, with `toStr` recovering the string value. -/
inductive AgentState where
  | IDLE
  | RUNNING
  | FINISHED
  | ERROR
deriving DecidableEq, Repr

/-- The string value of a `schema.AgentState` constant. -/
def AgentState.toStr : AgentState → String
  | .IDLE => "IDLE"
  | .RUNNING => "RUNNING"
  | .FINISHED => "FINISHED"
  | .ERROR => "ERROR"

/-- The fields of `BaseAgent`/`ToolCallAgent` that a single Think/Act step
reads and writes.  `MaxSteps` and `CurrentStep` live one level up, in
`Agent`, because in the repository they are written only by `Run` itself
(no `Step` implementation touches them). -/
structure AgentCore where
  name : String
  systemPrompt : String
  nextStepPrompt : String
  memory : Memory
  state : AgentState
  duplicateThreshold : Nat
  toolChoices : String
  specialToolNames : List String
  toolCalls : List ToolCall

/-- The agent record: the step-loop counters plus the step-visible core. -/
structure Agent where
  core : AgentCore
  maxSteps : Nat
  currentStep : Nat

/-! ## Stuck detection (BaseAgent.IsStuck / HandleStuckState) -/

/-- The duplicate test of the `IsStuck` scan: an assistant-role message
with non-nil content equal to the target. -/
def isDupOf (target : String) (m : Message) : Bool :=
  m.role == MessageRole.assistant && m.content == some target

/-- The backward scan of `IsStuck`: walk the messages before the last one
(given here already reversed, i.e. newest first), counting assistant
messages whose content equals the last message content, returning true as
soon as the count reaches the threshold. -/
def stuckScan (threshold : Nat) (target : String) : List Message → Nat → Bool
  | [], _ => false
  | msg :: rest, count =>
    if isDupOf target msg then
      let count := count + 1
      if threshold ≤ count then true else stuckScan threshold target rest count
    else
      stuckScan threshold target rest count

/-- `BaseAgent.IsStuck`: fewer than two messages is never stuck; a nil
content in the last message is never stuck; otherwise scan the earlier
messages backward for assistant messages with identical content. -/
def isStuck (c : AgentCore) : Bool :=
  if c.memory.messages.length < 2 then false
  else
    match c.memory.messages.getLast? with
    | none => false
    | some lastMsg =>
      match lastMsg.content with
      | none => false
      | some target =>
        stuckScan c.duplicateThreshold target c.memory.messages.dropLast.reverse 0

/-- `BaseAgent.HandleStuckState`: prepend the corrective sentence to the
next-step prompt. -/
def handleStuckState (c : AgentCore) : AgentCore :=
  let stuckPrompt :=
    "Observed duplicate responses. Consider new strategies and avoid repeating ineffective paths already attempted."
  { c with nextStepPrompt := stuckPrompt ++ "\n" ++ c.nextStepPrompt }

/-! ## The Run loop (BaseAgent.Run) -/

/-- A `Step` implementation: transforms the step-visible state and either
fails with an error or returns the step result text.  In the repository
this is `ReActAgent.Step` (Think, then conditionally Act). -/
abbrev Stepper := AgentCore → AgentCore × Except String String

/-- Errors returned by `Run`: the invalid-state precondition error
(`cannot run agent from state: ...`), or an error propagated unchanged
from `Step`. -/
inductive RunError where
  | invalidState (s : AgentState)
  | stepError (e : String)
deriving DecidableEq, Repr

/-- The message text of a `RunError` (`%v` formatting in Go). -/
def RunError.toStr : RunError → String
  | .invalidState s => "cannot run agent from state: " ++ s.toStr
  | .stepError e => e

/-- The `for` loop of `BaseAgent.Run`.  The loop guard
`CurrentStep < MaxSteps && State != FINISHED` is re-checked every
iteration; `fuel` only bounds the recursion and never cuts the loop short
when `maxSteps ≤ cur + fuel`, because each iteration increments `cur` by
one and the guard fails as soon as `cur` reaches `maxSteps`.  `Run` calls
it with `fuel = maxSteps`, which always satisfies that bound. -/
def runLoop (stepFn : Stepper) (maxSteps : Nat) :
    Nat → Nat → AgentCore → List String → (Nat × AgentCore) × Except String (List String)
  | 0, cur, core, results => ((cur, core), .ok results)
  | fuel + 1, cur, core, results =>
    if cur < maxSteps ∧ core.state ≠ AgentState.FINISHED then
      let cur1 := cur + 1
      let (core1, r) := stepFn core
      match r with
      | .error e => ((cur1, { core1 with state := .ERROR }), .error e)
      | .ok stepResult =>
        let core2 := if isStuck core1 then handleStuckState core1 else core1
        runLoop stepFn maxSteps fuel cur1 core2
          (results ++ ["Step " ++ toString cur1 ++ ": " ++ stepResult])
    else
      ((cur, core), .ok results)

/-- The opening of `BaseAgent.Run` after the Idle check: a non-empty
request is appended to memory as a user message. -/
def Agent.withRequest (a : Agent) (request : String) : Agent :=
  if request ≠ "" then
    { a with core := { a.core with memory := a.core.memory.addMessage (Message.newUser request) } }
  else a

/-- The tail of `BaseAgent.Run` after the loop: a step error propagates
with the loop state; otherwise append the exhaustion note when the step
budget was reached, and return the fixed marker when the result list is
empty, else the results one per line. -/
def Agent.runResult (a1 : Agent) :
    (Nat × AgentCore) × Except String (List String) → Agent × Except RunError String
  | ((cur, core1), .error e) =>
    ({ a1 with core := core1, currentStep := cur }, .error (.stepError e))
  | ((cur, core1), .ok results) =>
    let results :=
      if a1.maxSteps ≤ cur then
        results ++ ["Terminated: Reached max steps (" ++ toString a1.maxSteps ++ ")"]
      else results
    let out :=
      if results.length = 0 then "No steps executed"
      else String.intercalate "\n" results
    ({ a1 with core := core1, currentStep := cur }, .ok out)

/-- `BaseAgent.Run`: reject unless Idle; append the request as a user
message when non-empty; set state Running; run the loop; assemble the
textual result. -/
def Agent.run (stepFn : Stepper) (a : Agent) (request : String) : Agent × Except RunError String :=
  if a.core.state ≠ AgentState.IDLE then
    (a, .error (.invalidState a.core.state))
  else
    let a1 := a.withRequest request
    a1.runResult
      (runLoop stepFn a1.maxSteps a1.maxSteps a1.currentStep { a1.core with state := .RUNNING } [])

/-! ## Tool registry and dispatch (tool/base.go) -/

/-- `tool.ToolResult`. -/
structure ToolResult where
  output : String
  error : String
  system : String
deriving DecidableEq, Repr

/-- `ToolResult.IsSuccess`. -/
def ToolResult.isSuccess (r : ToolResult) : Bool :=
  r.error == ""

/-- A registered tool: its name and its `Execute` behaviour (result plus
the Go error channel; `none` is a nil error).  Description and parameter
schema only feed the model gateway and are omitted. -/
structure GoTool where
  name : String
  execute : Args → ToolResult × Option String

/-- `tool.ToolCollection`: a name-keyed map of tools. -/
structure ToolCollection where
  tools : List (String × GoTool)

/-- `ToolCollection.AddTool`: register under the tool name, overwriting any
previous registration of the same name (Go map assignment). -/
def ToolCollection.addTool (tc : ToolCollection) (t : GoTool) : ToolCollection :=
  { tools := tc.tools.filter (fun p => p.1 ≠ t.name) ++ [(t.name, t)] }

/-- `tool.NewToolCollection`. -/
def ToolCollection.new (ts : List GoTool) : ToolCollection :=
  ts.foldl ToolCollection.addTool { tools := [] }

/-- `ToolCollection.GetTool`. -/
def ToolCollection.getTool (tc : ToolCollection) (name : String) : Option GoTool :=
  (tc.tools.lookup name)

/-- `ToolCollection.Execute`: an unregistered name yields the structured
"Tool NAME is invalid" result with a nil Go error; otherwise run the tool. -/
def ToolCollection.exec (tc : ToolCollection) (name : String) (args : Args) :
    ToolResult × Option String :=
  match tc.getTool name with
  | none => ({ output := "", error := "Tool " ++ name ++ " is invalid", system := "" }, none)
  | some t => t.execute args

/-- `tool.NewTerminate().Execute`: status defaults to success; always a
successful result. -/
def terminateTool : GoTool :=
  { name := "terminate"
    execute := fun args =>
      let status := ((args.lookup "status").bind GoValue.asString).getD ""
      let status := if status = "" then "success" else status
      ({ output := "The interaction has been completed with status: " ++ status,
         error := "", system := "" }, none) }

/-! ## Think and Act (agent/toolcall.go) -/

/-- The assistant reply handed back by `llm.Client.AskTool`. -/
structure LLMResponse where
  content : String
  toolCalls : List ToolCall

/-- `ToolCallAgent.Think`.  The model gateway is external: its outcome is
the `resp` argument.  On success the proposed tool calls are stored in
`toolCalls` and an assistant message is appended; the return value follows
the tool-choice policy.  On gateway failure an assistant note is appended
and the error propagates. -/
def think (c : AgentCore) (resp : Except String LLMResponse) : AgentCore × Except String Bool :=
  let c :=
    if c.nextStepPrompt ≠ "" then
      { c with memory := c.memory.addMessage (Message.newUser c.nextStepPrompt) }
    else c
  match resp with
  | .error e =>
    ({ c with memory :=
        c.memory.addMessage (Message.newAssistant ("Error encountered while processing: " ++ e)) },
     .error e)
  | .ok r =>
    let c := { c with toolCalls := r.toolCalls }
    let assistantMsg :=
      if 0 < r.toolCalls.length then Message.fromToolCalls r.content r.toolCalls
      else Message.newAssistant r.content
    let c := { c with memory := c.memory.addMessage assistantMsg }
    if c.toolChoices = "none" then
      (c, .ok (r.content != ""))
    else if c.toolChoices = "required" ∧ r.toolCalls.length = 0 then
      (c, .ok true)
    else if c.toolChoices = "auto" ∧ r.toolCalls.length = 0 then
      (c, .ok (r.content != ""))
    else
      (c, .ok (decide (0 < r.toolCalls.length)))

/-- `ToolCallAgent.ExecuteTool`.  JSON decoding of the raw argument payload
(`tool.ParseToolArgs`) is external and passed in as `parse`.  Every branch
returns a nil Go error: tool-level failures are formatted into the result
string. -/
def executeTool (tc : ToolCollection) (parse : String → Except String Args)
    (call : ToolCall) : String × Option String :=
  if call.function.name = "" then
    ("Error: Invalid command format", none)
  else
    match parse call.function.arguments with
    | .error _ =>
      ("Error parsing arguments for " ++ call.function.name ++ ": Invalid JSON format", none)
    | .ok args =>
      match tc.exec call.function.name args with
      | (_, some e) =>
        ("⚠️ Tool '" ++ call.function.name ++ "' encountered a problem: " ++ e,
         none)
      | (result, none) =>
        if result.error ≠ "" then
          ("Error: " ++ result.error, none)
        else
          ("Observed output of cmd `" ++ call.function.name ++ "` executed:\n" ++ result.output,
           none)

/-- `ToolCallAgent.isSpecialTool`. -/
def isSpecialTool (c : AgentCore) (name : String) : Bool :=
  c.specialToolNames.contains name

/-- `ToolCallAgent.shouldFinishExecution`: the default policy judges every
invocation of a special tool finishing, whatever its result. -/
def shouldFinishExecution (_name : String) (_result : String) : Bool :=
  true

/-- The observation string Act records for one call: the `ExecuteTool`
result, or `Error: ...` when the (always nil) Go error channel is set. -/
def callObservation (tc : ToolCollection) (parse : String → Except String Args)
    (call : ToolCall) : String :=
  match executeTool tc parse call with
  | (_, some e) => "Error: " ++ e
  | (result, none) => result

/-- The body of `ToolCallAgent.Act` over the pending calls: sequentially
execute each call, append its observation as a tool-role message keyed by
the call id, and flip the state to Finished when a special tool finishes. -/
def actLoop (tc : ToolCollection) (parse : String → Except String Args) :
    List ToolCall → AgentCore → List String → AgentCore × List String
  | [], core, results => (core, results)
  | call :: rest, core, results =>
    let result := callObservation tc parse call
    let core :=
      { core with memory := core.memory.addMessage (Message.newTool result call.function.name call.id) }
    let core :=
      if isSpecialTool core call.function.name then
        if shouldFinishExecution call.function.name result then
          { core with state := .FINISHED }
        else core
      else core
    actLoop tc parse rest core (results ++ [result])

/-- `ToolCallAgent.Act`: with no pending calls, fail under policy required,
else report the last message content (or the fixed marker); otherwise run
every pending call in order and join the observations by a blank line. -/
def act (tc : ToolCollection) (parse : String → Except String Args)
    (core : AgentCore) : AgentCore × Except String String :=
  if core.toolCalls.length = 0 then
    if core.toolChoices = "required" then
      (core, .error "tool calls required but none provided")
    else
      match core.memory.messages.getLast? with
      | some lastMsg =>
        match lastMsg.content with
        | some content => (core, .ok content)
        | none => (core, .ok "No content or commands to execute")
      | none => (core, .ok "No content or commands to execute")
  else
    let (core1, results) := actLoop tc parse core.toolCalls core []
    (core1, .ok (String.intercalate "\n\n" results))

/-! ## Planning tool (tool/planning.go) -/

/-- `tool.PlanStepStatus` constants. -/
inductive PlanStepStatus where
  | notStarted
  | inProgress
  | completed
  | blocked
deriving DecidableEq, Repr

/-- The string value of a `PlanStepStatus` constant. -/
def PlanStepStatus.toStr : PlanStepStatus → String
  | .notStarted => "not_started"
  | .inProgress => "in_progress"
  | .completed => "completed"
  | .blocked => "blocked"

/-- The status validation of `markStep`: only the four constants pass. -/
def PlanStepStatus.ofStr : String → Option PlanStepStatus
  | "not_started" => some .notStarted
  | "in_progress" => some .inProgress
  | "completed" => some .completed
  | "blocked" => some .blocked
  | _ => none

/-- `tool.PlanStep`. -/
structure PlanStep where
  description : String
  status : PlanStepStatus
  result : String
  error : String
deriving DecidableEq, Repr

/-- `tool.Plan` (timestamps and free-form metadata carry no behaviour in
the modelled paths and are omitted). -/
structure Plan where
  id : String
  title : String
  steps : List PlanStep
deriving DecidableEq, Repr

/-- `tool.PlanningTool` state.  `savedLog` records every `savePlan` call
(the external file persistence), newest last, so that "the plan was
persisted" is a provable statement. -/
structure PlanningTool where
  plans : List (String × Plan)
  activePlan : String
  savedLog : List Plan
deriving DecidableEq, Repr

/-- A fresh `PlanningTool` (with no previously stored plans on disk). -/
def PlanningTool.empty : PlanningTool :=
  { plans := [], activePlan := "", savedLog := [] }

/-- `savePlan`: persist one plan (modelled as a log entry). -/
def PlanningTool.savePlan (pt : PlanningTool) (plan : Plan) : PlanningTool :=
  { pt with savedLog := pt.savedLog ++ [plan] }

/-- `PlanningTool.Execute` with command `create`: validate plan_id, title
and steps, refuse duplicates, build the steps as NotStarted and persist.
(The Go code converts each step with an unchecked `.(string)` assertion;
all modelled callers pass strings.) -/
def PlanningTool.createPlan (pt : PlanningTool) (args : Args) : PlanningTool × ToolResult :=
  let planID := ((args.lookup "plan_id").bind GoValue.asString).getD ""
  if planID = "" then
    (pt, { output := "", error := "plan_id is required for create command", system := "" })
  else
    let title := ((args.lookup "title").bind GoValue.asString).getD ""
    if title = "" then
      (pt, { output := "", error := "title is required for create command", system := "" })
    else
      match (args.lookup "steps").bind GoValue.asList with
      | none =>
        (pt, { output := "", error := "steps is required for create command", system := "" })
      | some stepVals =>
        if stepVals.length = 0 then
          (pt, { output := "", error := "steps is required for create command", system := "" })
        else if (pt.plans.lookup planID).isSome then
          (pt, { output := "", error := "Plan with ID " ++ planID ++ " already exists", system := "" })
        else
          let steps := stepVals.map fun v =>
            ({ description := (v.asString).getD "", status := .notStarted,
               result := "", error := "" } : PlanStep)
          let plan : Plan := { id := planID, title := title, steps := steps }
          let pt := { pt with plans := pt.plans ++ [(planID, plan)] }
          let pt := pt.savePlan plan
          (pt, { output := "Plan '" ++ title ++ "' created successfully with "
                   ++ toString steps.length ++ " steps",
                 error := "", system := "" })

/-- `PlanningTool.Execute` with command `set_active`. -/
def PlanningTool.setActivePlan (pt : PlanningTool) (args : Args) : PlanningTool × ToolResult :=
  let planID := ((args.lookup "plan_id").bind GoValue.asString).getD ""
  if planID = "" then
    (pt, { output := "", error := "plan_id is required for set_active command", system := "" })
  else if (pt.plans.lookup planID).isSome then
    ({ pt with activePlan := planID },
     { output := "Plan '" ++ planID ++ "' set as active", error := "", system := "" })
  else
    (pt, { output := "", error := "Plan with ID " ++ planID ++ " not found", system := "" })

/-- Replace the entry for `planID` with the updated plan. -/
def PlanningTool.putPlan (pt : PlanningTool) (planID : String) (plan : Plan) : PlanningTool :=
  { pt with plans := pt.plans.map fun p => if p.1 = planID then (planID, plan) else p }

/-- `PlanningTool.Execute` with command `mark_step`.  The step index is
read with the Go type assertion `args["step_index"].(float64)`: a value of
any other dynamic type — in particular a Go `int` — fails the assertion
and the command errors out without touching the plan. -/
def PlanningTool.markStep (pt : PlanningTool) (args : Args) : PlanningTool × ToolResult :=
  let planID := ((args.lookup "plan_id").bind GoValue.asString).getD ""
  let planID := if planID = "" then pt.activePlan else planID
  if planID = "" then
    (pt, { output := "", error := "No plan_id provided and no active plan set", system := "" })
  else
    match (args.lookup "step_index").bind GoValue.asFloat with
    | none =>
      (pt, { output := "", error := "step_index is required for mark_step command", system := "" })
    | some stepIndex =>
      match (args.lookup "status").bind GoValue.asString with
      | none =>
        (pt, { output := "", error := "status is required for mark_step command", system := "" })
      | some statusStr =>
        match PlanStepStatus.ofStr statusStr with
        | none =>
          (pt, { output := "", error := "Invalid status: " ++ statusStr, system := "" })
        | some status =>
          match pt.plans.lookup planID with
          | none =>
            (pt, { output := "", error := "Plan with ID " ++ planID ++ " not found", system := "" })
          | some plan =>
            if stepIndex < 0 ∨ (plan.steps.length : Int) ≤ stepIndex then
              (pt, { output := "",
                     error := "Invalid step_index: " ++ toString stepIndex ++ " (plan has "
                       ++ toString plan.steps.length ++ " steps)",
                     system := "" })
            else
              let idx := stepIndex.toNat
              let newSteps := plan.steps.mapIdx fun i step =>
                if i = idx then
                  let step := { step with status := status }
                  match (args.lookup "result").bind GoValue.asString with
                  | some result => { step with result := result }
                  | none => step
                else step
              let plan := { plan with steps := newSteps }
              let pt := pt.putPlan planID plan
              let pt := pt.savePlan plan
              (pt, { output := "Step " ++ toString (idx + 1) ++ " marked as " ++ status.toStr,
                     error := "", system := "" })

/-- `PlanningTool.GetActivePlan`. -/
def PlanningTool.getActivePlan (pt : PlanningTool) : Option Plan :=
  if pt.activePlan = "" then none else pt.plans.lookup pt.activePlan

/-! ## Planning flow (flow/planning.go) -/

/-- The fixed step template `createInitialPlan` synthesizes. -/
def initialPlanSteps : List String :=
  ["Analyze the request", "Plan the solution", "Execute the plan", "Verify the results"]

/-- `PlanningFlow.createInitialPlan`: create the fixed-template plan under
`planID` and mark it active.  (Go routes both calls through
`PlanningTool.Execute`, whose command dispatch selects `createPlan` and
`setActivePlan`.) -/
def createInitialPlan (pt : PlanningTool) (request : String) (planID : String) :
    PlanningTool × ToolResult × ToolResult :=
  let createArgs : Args :=
    [("command", .str "create"), ("plan_id", .str planID),
     ("title", .str ("Plan for: " ++ request)),
     ("steps", .list (initialPlanSteps.map GoValue.str))]
  let (pt, r1) := pt.createPlan createArgs
  let activeArgs : Args := [("command", .str "set_active"), ("plan_id", .str planID)]
  let (pt, r2) := pt.setActivePlan activeArgs
  (pt, r1, r2)

/-- The stepInfo map `getCurrentStepInfo` packages for `executeStep` —
note the index is stored as a Go `int`. -/
def mkStepInfo (i : Int) (description : String) : Args :=
  [("index", GoValue.int i), ("description", GoValue.str description),
   ("type", GoValue.str "default")]

/-- `PlanningFlow.getCurrentStepInfo`: the first step whose status is
NotStarted or InProgress, packaged as the stepInfo map. -/
def getCurrentStepInfo (pt : PlanningTool) : Option (Nat × Args) :=
  match pt.getActivePlan with
  | none => none
  | some plan =>
    match plan.steps.findIdx? fun s =>
        s.status = PlanStepStatus.notStarted ∨ s.status = PlanStepStatus.inProgress with
    | none => none
    | some i =>
      match plan.steps[i]? with
      | none => none
      | some step => some (i, mkStepInfo (i : Int) step.description)

/-- `PlanningFlow.executeStep`: mark the step in_progress, run the
executor on the step description, and mark completed or blocked — each
mark routed through the planning tool with `step_index` as a Go `int`,
its result discarded.  The executor error propagates unchanged. -/
def executeStep (pt : PlanningTool) (stepFn : Stepper) (executor : Agent)
    (stepInfo : Args) : (PlanningTool × Agent) × Except RunError String :=
  match (stepInfo.lookup "index").bind GoValue.asInt with
  | none => ((pt, executor), .error (.stepError "invalid step index"))
  | some stepIndex =>
    match (stepInfo.lookup "description").bind GoValue.asString with
    | none => ((pt, executor), .error (.stepError "invalid step description"))
    | some description =>
      let inProgressArgs : Args :=
        [("command", .str "mark_step"), ("step_index", .int stepIndex),
         ("status", .str "in_progress")]
      let (pt, _) := pt.markStep inProgressArgs
      match executor.run stepFn description with
      | (executor1, .error e) =>
        let blockedArgs : Args :=
          [("command", .str "mark_step"), ("step_index", .int stepIndex),
           ("status", .str "blocked"), ("result", .str ("Error: " ++ e.toStr))]
        let (pt, _) := pt.markStep blockedArgs
        ((pt, executor1), .error e)
      | (executor1, .ok result) =>
        let completedArgs : Args :=
          [("command", .str "mark_step"), ("step_index", .int stepIndex),
           ("status", .str "completed"), ("result", .str result)]
        let (pt, _) := pt.markStep completedArgs
        ((pt, executor1), .ok result)

/-! ## Lemmas about Memory (claim C2) -/

lemma lastN_length_le (n : Nat) (l : List α) : (lastN n l).length ≤ n := by
  simp only [lastN, List.length_drop]
  omega

lemma lastN_of_length_le (n : Nat) (l : List α) (h : l.length ≤ n) : lastN n l = l := by
  simp only [lastN, Nat.sub_eq_zero_of_le h, List.drop_zero]

lemma lastN_append_lastN (n : Nat) (xs ys : List α) :
    lastN n (lastN n xs ++ ys) = lastN n (xs ++ ys) := by
  simp only [lastN, List.length_append, List.length_drop,
    List.drop_append_eq_append_drop, List.drop_drop]
  congr 1
  · congr 1
    omega
  · congr 1
    omega

lemma Memory.addMessage_messages (m : Memory) (msg : Message) :
    (m.addMessage msg).messages = lastN m.maxMessages (m.messages ++ [msg]) := by
  simp only [Memory.addMessage, lastN]
  split
  · rfl
  · next hle =>
    simp only [not_lt] at hle
    have hl : (m.messages ++ [msg]).length = m.messages.length + 1 := by simp
    rw [hl] at hle
    rw [hl, show m.messages.length + 1 - m.maxMessages = 0 by omega, List.drop_zero]

lemma Memory.addMessage_maxMessages (m : Memory) (msg : Message) :
    (m.addMessage msg).maxMessages = m.maxMessages := by
  simp only [Memory.addMessage]
  split <;> rfl

lemma Memory.addMessages_messages (m : Memory) (msgs : List Message) :
    (m.addMessages msgs).messages = lastN m.maxMessages (m.messages ++ msgs) := by
  simp only [Memory.addMessages, lastN]
  split
  · rfl
  · next hle =>
    simp only [not_lt] at hle
    have hl : (m.messages ++ msgs).length = m.messages.length + msgs.length := by simp
    rw [hl] at hle
    rw [hl, show m.messages.length + msgs.length - m.maxMessages = 0 by omega, List.drop_zero]

lemma Memory.addMessages_maxMessages (m : Memory) (msgs : List Message) :
    (m.addMessages msgs).maxMessages = m.maxMessages := by
  simp only [Memory.addMessages]
  split <;> rfl

lemma Memory.applyOp_messages (m : Memory) (op : MemOp) :
    (m.applyOp op).messages = lastN m.maxMessages (m.messages ++ op.payload) := by
  cases op with
  | add msg => simpa [Memory.applyOp, MemOp.payload] using m.addMessage_messages msg
  | addMany msgs => simpa [Memory.applyOp, MemOp.payload] using m.addMessages_messages msgs

lemma Memory.applyOp_maxMessages (m : Memory) (op : MemOp) :
    (m.applyOp op).maxMessages = m.maxMessages := by
  cases op with
  | add msg => simpa [Memory.applyOp] using m.addMessage_maxMessages msg
  | addMany msgs => simpa [Memory.applyOp] using m.addMessages_maxMessages msgs

lemma Memory.applyOps_spec (ops : List MemOp) (mem : Memory)
    (h : mem.messages.length ≤ mem.maxMessages) :
    (mem.applyOps ops).maxMessages = mem.maxMessages ∧
    (mem.applyOps ops).messages =
      lastN mem.maxMessages (mem.messages ++ (ops.map MemOp.payload).flatten) := by
  induction ops generalizing mem with
  | nil =>
    refine ⟨rfl, ?_⟩
    simp only [Memory.applyOps, List.foldl_nil, List.map_nil, List.flatten, List.append_nil]
    exact (lastN_of_length_le _ _ h).symm
  | cons op ops ih =>
    have hmsgs := mem.applyOp_messages op
    have hmax := mem.applyOp_maxMessages op
    have hlen : (mem.applyOp op).messages.length ≤ (mem.applyOp op).maxMessages := by
      rw [hmsgs, hmax]
      exact lastN_length_le _ _
    have := ih (mem.applyOp op) hlen
    rw [hmax] at this
    refine ⟨this.1, ?_⟩
    have heq : (Memory.applyOps mem (op :: ops)) = Memory.applyOps (mem.applyOp op) ops := by
      simp [Memory.applyOps]
    rw [heq, this.2, hmsgs, lastN_append_lastN]
    simp [List.append_assoc]

/-- C2: the Memory capacity invariant.  The default capacity is 100; any
sequence of AddMessage/AddMessages operations preserves the capacity
field, keeps the stored message count at or under the capacity, and
leaves exactly the most recently appended messages, in their original
relative order (the `lastN` suffix of everything ever appended). -/
theorem memory_capacity_fifo (mem : Memory) (ops : List MemOp)
    (h : mem.messages.length ≤ mem.maxMessages) :
    Memory.new.maxMessages = 100 ∧
    (mem.applyOps ops).maxMessages = mem.maxMessages ∧
    (mem.applyOps ops).messages.length ≤ mem.maxMessages ∧
    (mem.applyOps ops).messages =
      lastN mem.maxMessages (mem.messages ++ (ops.map MemOp.payload).flatten) := by
  obtain ⟨h1, h2⟩ := Memory.applyOps_spec ops mem h
  refine ⟨rfl, h1, ?_, h2⟩
  rw [h2]
  exact lastN_length_le _ _

/-! ## Lemmas about the Run loop (claims C1, C3, C9, C10) -/

lemma runLoop_spec (stepFn : Stepper) (maxSteps : Nat) :
    ∀ (fuel cur : Nat) (core : AgentCore) (results : List String),
      maxSteps ≤ cur + fuel →
      cur ≤ (runLoop stepFn maxSteps fuel cur core results).1.1 ∧
      (cur ≤ maxSteps → (runLoop stepFn maxSteps fuel cur core results).1.1 ≤ maxSteps) ∧
      (∀ rs, (runLoop stepFn maxSteps fuel cur core results).2 = .ok rs →
        (runLoop stepFn maxSteps fuel cur core results).1.2.state = AgentState.FINISHED ∨
          maxSteps ≤ (runLoop stepFn maxSteps fuel cur core results).1.1) ∧
      (∀ e, (runLoop stepFn maxSteps fuel cur core results).2 = .error e →
        (runLoop stepFn maxSteps fuel cur core results).1.2.state = AgentState.ERROR) := by
  intro fuel
  induction fuel with
  | zero =>
    intro cur core results hle
    simp only [runLoop]
    refine ⟨Nat.le_refl _, fun h => h, ?_, ?_⟩
    · intro rs _
      right
      show maxSteps ≤ cur
      omega
    · intro e h
      simp at h
  | succ fuel ih =>
    intro cur core results hle
    simp only [runLoop]
    by_cases hg : cur < maxSteps ∧ core.state ≠ AgentState.FINISHED
    · rw [if_pos hg]
      obtain ⟨hcur, -⟩ := hg
      rcases hsf : stepFn core with ⟨core1, r⟩
      cases r with
      | error e =>
        simp only [hsf]
        refine ⟨?_, ?_, ?_, ?_⟩
        · show cur ≤ cur + 1
          omega
        · intro _
          show cur + 1 ≤ maxSteps
          omega
        · intro rs h
          simp at h
        · intro e1 h1
          trivial
      | ok stepResult =>
        simp only [hsf]
        obtain ⟨h1, h2, h3, h4⟩ := ih (cur + 1)
          (if isStuck core1 then handleStuckState core1 else core1)
          (results ++ ["Step " ++ toString (cur + 1) ++ ": " ++ stepResult]) (by omega)
        exact ⟨Nat.le_trans (Nat.le_succ cur) h1, fun _ => h2 (by omega), h3, h4⟩
    · rw [if_neg hg]
      refine ⟨Nat.le_refl _, fun h => h, ?_, ?_⟩
      · intro rs _
        rcases not_and_or.mp hg with h1 | h2
        · right
          show maxSteps ≤ cur
          omega
        · left
          exact not_not.mp h2
      · intro e h
        simp at h

lemma runLoop_state_ne_idle (stepFn : Stepper) (maxSteps : Nat)
    (hpres : ∀ c, c.state ≠ AgentState.IDLE → (stepFn c).1.state ≠ AgentState.IDLE) :
    ∀ (fuel cur : Nat) (core : AgentCore) (results : List String),
      core.state ≠ AgentState.IDLE →
      (runLoop stepFn maxSteps fuel cur core results).1.2.state ≠ AgentState.IDLE := by
  intro fuel
  induction fuel with
  | zero =>
    intro cur core results hni
    simpa only [runLoop] using hni
  | succ fuel ih =>
    intro cur core results hni
    simp only [runLoop]
    by_cases hg : cur < maxSteps ∧ core.state ≠ AgentState.FINISHED
    · rw [if_pos hg]
      rcases hsf : stepFn core with ⟨core1, r⟩
      have hni1 : core1.state ≠ AgentState.IDLE := by
        have := hpres core hni
        rw [hsf] at this
        exact this
      cases r with
      | error e =>
        simp only [hsf]
        intro h
        simp at h
      | ok stepResult =>
        simp only [hsf]
        apply ih
        by_cases hstuck : isStuck core1
        · simpa [hstuck, handleStuckState] using hni1
        · simpa [hstuck] using hni1
    · rw [if_neg hg]
      exact hni

lemma runLoop_exhausted (stepFn : Stepper) (maxSteps fuel cur : Nat)
    (core : AgentCore) (results : List String) (h : maxSteps ≤ cur) :
    runLoop stepFn maxSteps fuel cur core results = ((cur, core), .ok results) := by
  cases fuel with
  | zero => simp only [runLoop]
  | succ fuel =>
    simp only [runLoop]
    rw [if_neg]
    intro hg
    omega

lemma Agent.withRequest_maxSteps (a : Agent) (request : String) :
    (a.withRequest request).maxSteps = a.maxSteps := by
  simp only [Agent.withRequest]
  split <;> rfl

lemma Agent.withRequest_currentStep (a : Agent) (request : String) :
    (a.withRequest request).currentStep = a.currentStep := by
  simp only [Agent.withRequest]
  split <;> rfl

lemma Agent.run_not_idle (stepFn : Stepper) (a : Agent) (request : String)
    (h : a.core.state ≠ AgentState.IDLE) :
    a.run stepFn request = (a, .error (.invalidState a.core.state)) := by
  simp only [Agent.run, if_pos h]

lemma Agent.run_idle_eq (stepFn : Stepper) (a : Agent) (request : String)
    (h : a.core.state = AgentState.IDLE) :
    a.run stepFn request =
      (a.withRequest request).runResult
        (runLoop stepFn (a.withRequest request).maxSteps (a.withRequest request).maxSteps
          (a.withRequest request).currentStep
          { (a.withRequest request).core with state := .RUNNING } []) := by
  have hg : ¬(a.core.state ≠ AgentState.IDLE) := by simp [h]
  simp only [Agent.run, if_neg hg]

lemma Agent.runResult_error_ne_invalid (a1 : Agent)
    (lr : (Nat × AgentCore) × Except String (List String)) (s : AgentState) :
    (a1.runResult lr).2 ≠ .error (.invalidState s) := by
  rcases lr with ⟨⟨cur, core1⟩, r⟩
  cases r with
  | error e =>
    simp only [Agent.runResult]
    intro h
    simp at h
  | ok results =>
    simp only [Agent.runResult]
    intro h
    simp at h

/-- Concrete witness for C2: capacity 2, three messages appended — the two
newest survive, in order. -/
theorem memory_capacity_fifo_witness :
    (({ messages := [], maxMessages := 2 } : Memory)).messages.length ≤ 2 ∧
    (Memory.new.maxMessages = 100 ∧
      (Memory.applyOps { messages := [], maxMessages := 2 }
        [.add (Message.newUser "m1"), .addMany [Message.newUser "m2", Message.newUser "m3"]]).maxMessages = 2 ∧
      (Memory.applyOps { messages := [], maxMessages := 2 }
        [.add (Message.newUser "m1"), .addMany [Message.newUser "m2", Message.newUser "m3"]]).messages.length ≤ 2 ∧
      (Memory.applyOps { messages := [], maxMessages := 2 }
        [.add (Message.newUser "m1"), .addMany [Message.newUser "m2", Message.newUser "m3"]]).messages =
        lastN 2 ([] ++ ([[Message.newUser "m1"], [Message.newUser "m2", Message.newUser "m3"]] :
          List (List Message)).flatten)) :=
  ⟨by decide,
   memory_capacity_fifo { messages := [], maxMessages := 2 }
     [.add (Message.newUser "m1"), .addMany [Message.newUser "m2", Message.newUser "m3"]]
     (by decide)⟩

/-! ## Shared concrete fixtures for witnesses and counterexamples -/

/-- A minimal agent core in the Idle state with the default configuration
of `NewToolCallAgent` (threshold 2, policy auto, special tool terminate). -/
def coreW : AgentCore :=
  { name := "w", systemPrompt := "", nextStepPrompt := "", memory := Memory.new,
    state := .IDLE, duplicateThreshold := 2, toolChoices := "auto",
    specialToolNames := ["terminate"], toolCalls := [] }

/-- An idle agent with a step budget of 1. -/
def agentW : Agent := { core := coreW, maxSteps := 1, currentStep := 0 }

/-- An idle agent with a step budget of 0. -/
def agentZeroW : Agent := { core := coreW, maxSteps := 0, currentStep := 0 }

/-- An agent already in the Running state. -/
def agentRunningW : Agent :=
  { core := { coreW with state := .RUNNING }, maxSteps := 1, currentStep := 0 }

/-- A stepper that always succeeds and never touches the state. -/
def stepOk : Stepper := fun c => (c, .ok "done")

lemma Agent.runResult_fst (a1 : Agent)
    (lr : (Nat × AgentCore) × Except String (List String)) :
    (a1.runResult lr).1 = { a1 with core := lr.1.2, currentStep := lr.1.1 } := by
  rcases lr with ⟨⟨cur, core1⟩, r⟩
  cases r <;> rfl

/-! ## Claim C1: the step budget of Run -/

/-- C1: started from Idle with step counter 0, `Run` executes at most
MaxSteps steps — the final step counter, which counts exactly the executed
steps, stays at or under MaxSteps; on normal return the loop stopped
exactly because the state became Finished or because MaxSteps steps have
run; a step error aborts the run with the propagated step error and state
Error. -/
theorem run_step_budget (stepFn : Stepper) (a : Agent) (request : String)
    (hidle : a.core.state = AgentState.IDLE) (h0 : a.currentStep = 0) :
    (a.run stepFn request).1.currentStep ≤ a.maxSteps ∧
    (∀ s, (a.run stepFn request).2 = .ok s →
      (a.run stepFn request).1.core.state = AgentState.FINISHED ∨
        (a.run stepFn request).1.currentStep = a.maxSteps) ∧
    (∀ e, (a.run stepFn request).2 = .error e →
      (∃ msg, e = RunError.stepError msg) ∧
        (a.run stepFn request).1.core.state = AgentState.ERROR) := by
  rw [Agent.run_idle_eq stepFn a request hidle]
  have hmax : (a.withRequest request).maxSteps = a.maxSteps := a.withRequest_maxSteps request
  have hcur : (a.withRequest request).currentStep = a.currentStep :=
    a.withRequest_currentStep request
  obtain ⟨h1, h2, h3, h4⟩ := runLoop_spec stepFn (a.withRequest request).maxSteps
    (a.withRequest request).maxSteps (a.withRequest request).currentStep
    { (a.withRequest request).core with state := .RUNNING } [] (by omega)
  rcases hout : runLoop stepFn (a.withRequest request).maxSteps (a.withRequest request).maxSteps
      (a.withRequest request).currentStep
      { (a.withRequest request).core with state := .RUNNING } [] with ⟨⟨cur, core1⟩, r⟩
  rw [hout] at h1 h2 h3 h4
  simp only at h1 h2 h3 h4
  rw [hout, Agent.runResult_fst] at *
  have hcle : cur ≤ a.maxSteps := by
    have := h2 (by omega)
    omega
  cases r with
  | error e =>
    simp only [Agent.runResult]
    refine ⟨hcle, ?_, ?_⟩
    · intro s hs
      simp at hs
    · intro e1 he1
      have he : RunError.stepError e = e1 := by simpa using he1
      subst he
      exact ⟨⟨e, rfl⟩, h4 e rfl⟩
  | ok results =>
    simp only [Agent.runResult]
    refine ⟨hcle, ?_, ?_⟩
    · intro s _
      rcases h3 results rfl with hfin | hexh
      · left
        exact hfin
      · right
        omega
    · intro e1 he1
      simp at he1

/-- Witness for C1: the default-style idle agent with budget 1 and a
trivial stepper. -/
theorem run_step_budget_witness :
    agentW.core.state = AgentState.IDLE ∧ agentW.currentStep = 0 ∧
    ((agentW.run stepOk "go").1.currentStep ≤ agentW.maxSteps ∧
      (∀ s, (agentW.run stepOk "go").2 = .ok s →
        (agentW.run stepOk "go").1.core.state = AgentState.FINISHED ∨
          (agentW.run stepOk "go").1.currentStep = agentW.maxSteps) ∧
      (∀ e, (agentW.run stepOk "go").2 = .error e →
        (∃ msg, e = RunError.stepError msg) ∧
          (agentW.run stepOk "go").1.core.state = AgentState.ERROR)) :=
  ⟨rfl, rfl, run_step_budget stepOk agentW "go" rfl rfl⟩

/-! ## Claim C3: the Idle precondition of Run -/

/-- C3: called in any state other than Idle, `Run` fails immediately with
the invalid-state error and returns the agent entirely unchanged (state,
memory and step counter included); called from Idle it never returns the
invalid-state error. -/
theorem run_requires_idle (stepFn : Stepper) (a : Agent) (request : String) :
    (a.core.state ≠ AgentState.IDLE →
      a.run stepFn request = (a, .error (.invalidState a.core.state))) ∧
    (a.core.state = AgentState.IDLE →
      ∀ s, (a.run stepFn request).2 ≠ .error (.invalidState s)) := by
  constructor
  · intro h
    exact Agent.run_not_idle stepFn a request h
  · intro h s
    rw [Agent.run_idle_eq stepFn a request h]
    exact Agent.runResult_error_ne_invalid _ _ s

/-- Witness for C3: a Running agent is rejected unchanged with the
invalid-state error. -/
theorem run_requires_idle_witness :
    agentRunningW.core.state ≠ AgentState.IDLE ∧
    agentRunningW.run stepOk "x" =
      (agentRunningW, .error (.invalidState agentRunningW.core.state)) :=
  ⟨by decide, (run_requires_idle stepOk agentRunningW "x").1 (by decide)⟩

/-! ## Claim C9: the result of a Run that executed no step -/

lemma intercalate_single (s x : String) : String.intercalate s [x] = x := rfl

/-- Counterexample to C9 as stated: with MaxSteps = 0 no step ever
executes, yet the result is the exhaustion note, not the fixed
"No steps executed" marker (which is unreachable once the Idle guard
passed, because the exhaustion branch always contributes a line first). -/
theorem run_no_steps_marker_cex :
    (agentZeroW.run stepOk "").2 = .ok "Terminated: Reached max steps (0)" ∧
    ("Terminated: Reached max steps (0)" : String) ≠ "No steps executed" := by
  constructor
  · rfl
  · decide

/-- C9 amended: whenever no step executes (the step counter already meets
the budget on entry from Idle, e.g. MaxSteps = 0), `Run` succeeds and its
result is exactly the exhaustion note `Terminated: Reached max steps (N)`;
the "No steps executed" marker is never the result. -/
theorem run_exhausted_result (stepFn : Stepper) (a : Agent) (request : String)
    (hidle : a.core.state = AgentState.IDLE) (hex : a.maxSteps ≤ a.currentStep) :
    (a.run stepFn request).2 =
      .ok ("Terminated: Reached max steps (" ++ toString a.maxSteps ++ ")") := by
  rw [Agent.run_idle_eq stepFn a request hidle]
  have hmax : (a.withRequest request).maxSteps = a.maxSteps := a.withRequest_maxSteps request
  have hcur : (a.withRequest request).currentStep = a.currentStep :=
    a.withRequest_currentStep request
  rw [runLoop_exhausted _ _ _ _ _ _ (by omega)]
  simp only [Agent.runResult]
  rw [if_pos (by omega : (a.withRequest request).maxSteps ≤ (a.withRequest request).currentStep)]
  rw [hmax]
  simp only [List.nil_append, List.length_cons, List.length_nil]
  rw [if_neg (by omega)]
  rw [intercalate_single]

/-- Witness for the amended C9: the concrete budget-0 agent. -/
theorem run_exhausted_result_witness :
    agentZeroW.core.state = AgentState.IDLE ∧
    agentZeroW.maxSteps ≤ agentZeroW.currentStep ∧
    (agentZeroW.run stepOk "").2 =
      .ok ("Terminated: Reached max steps (" ++ toString agentZeroW.maxSteps ++ ")") :=
  ⟨rfl, by decide, run_exhausted_result stepOk agentZeroW "" rfl (by decide)⟩

/-! ## Claim C10: terminal states are never reset; no second Run -/

lemma executeStep_not_idle (pt : PlanningTool) (stepFn2 : Stepper) (ex : Agent)
    (i : Int) (desc : String) (hni : ex.core.state ≠ AgentState.IDLE) :
    (executeStep pt stepFn2 ex (mkStepInfo i desc)).2 =
      .error (.invalidState ex.core.state) := by
  simp only [executeStep, mkStepInfo, List.lookup, GoValue.asInt, GoValue.asString,
    String.reduceBEq, Option.some_bind]
  rw [Agent.run_not_idle stepFn2 ex desc hni]

/-- C10: after a Run that started from Idle, the agent state is never
Idle again (Running on budget exhaustion, Finished, or Error) and the step
counter is never reset; hence every later `Run` on the same instance —
directly, or through a planning-flow `executeStep` — fails the Idle
precondition with the invalid-state error, so an executor can complete at
most one plan step.  The hypothesis on the stepper states what is true of
every Step implementation in the repository: a step never writes the Idle
state. -/
theorem run_terminal_no_reuse (stepFn : Stepper)
    (hpres : ∀ c, c.state ≠ AgentState.IDLE → (stepFn c).1.state ≠ AgentState.IDLE)
    (a : Agent) (request : String) (hidle : a.core.state = AgentState.IDLE) :
    (a.run stepFn request).1.core.state ≠ AgentState.IDLE ∧
    a.currentStep ≤ (a.run stepFn request).1.currentStep ∧
    (∀ (stepFn2 : Stepper) (req2 : String),
      (a.run stepFn request).1.run stepFn2 req2 =
        ((a.run stepFn request).1,
          .error (.invalidState (a.run stepFn request).1.core.state))) ∧
    (∀ (pt : PlanningTool) (stepFn2 : Stepper) (i : Int) (desc : String),
      (executeStep pt stepFn2 (a.run stepFn request).1 (mkStepInfo i desc)).2 =
        .error (.invalidState (a.run stepFn request).1.core.state)) := by
  have hni : (a.run stepFn request).1.core.state ≠ AgentState.IDLE := by
    rw [Agent.run_idle_eq stepFn a request hidle, Agent.runResult_fst]
    exact runLoop_state_ne_idle stepFn (a.withRequest request).maxSteps hpres
      (a.withRequest request).maxSteps (a.withRequest request).currentStep
      { (a.withRequest request).core with state := .RUNNING } [] (by simp)
  have hstep : a.currentStep ≤ (a.run stepFn request).1.currentStep := by
    rw [Agent.run_idle_eq stepFn a request hidle, Agent.runResult_fst]
    have hcur : (a.withRequest request).currentStep = a.currentStep :=
      a.withRequest_currentStep request
    have h1 := (runLoop_spec stepFn (a.withRequest request).maxSteps
      (a.withRequest request).maxSteps (a.withRequest request).currentStep
      { (a.withRequest request).core with state := .RUNNING } [] (by omega)).1
    exact le_of_eq_of_le hcur.symm h1
  refine ⟨hni, hstep, ?_, ?_⟩
  · intro stepFn2 req2
    exact Agent.run_not_idle stepFn2 _ req2 hni
  · intro pt stepFn2 i desc
    exact executeStep_not_idle pt stepFn2 _ i desc hni

/-- Witness for C10: a completed Run on the concrete idle agent blocks all
later Runs on it. -/
theorem run_terminal_no_reuse_witness :
    (∀ c, c.state ≠ AgentState.IDLE → (stepOk c).1.state ≠ AgentState.IDLE) ∧
    agentW.core.state = AgentState.IDLE ∧
    ((agentW.run stepOk "go").1.core.state ≠ AgentState.IDLE ∧
      agentW.currentStep ≤ (agentW.run stepOk "go").1.currentStep ∧
      (∀ (stepFn2 : Stepper) (req2 : String),
        (agentW.run stepOk "go").1.run stepFn2 req2 =
          ((agentW.run stepOk "go").1,
            .error (.invalidState (agentW.run stepOk "go").1.core.state))) ∧
      (∀ (pt : PlanningTool) (stepFn2 : Stepper) (i : Int) (desc : String),
        (executeStep pt stepFn2 (agentW.run stepOk "go").1 (mkStepInfo i desc)).2 =
          .error (.invalidState (agentW.run stepOk "go").1.core.state))) :=
  ⟨fun _ h => h, rfl, run_terminal_no_reuse stepOk (fun _ h => h) agentW "go" rfl⟩

/-! ## Claim C6: the Think tool-choice policy -/

/-- A sample tool call used by concrete inputs. -/
def tcW : ToolCall :=
  { id := "call_1", type := "function", function := { name := "terminate", arguments := "" } }

/-- A core configured with tool-choice policy none. -/
def coreNoneW : AgentCore := { coreW with toolChoices := "none", state := .RUNNING }

/-- A model reply proposing one call alongside non-empty content. -/
def respW : LLMResponse := { content := "x", toolCalls := [tcW] }

/-- Counterexample to C6 as stated: under policy none, Think on a reply
with non-empty content and a proposed call returns true — but the
proposed calls are NOT discarded: they are stored in the pending-call
slot (`a.ToolCalls` is assigned before the policy check), so a following
Act would execute them. -/
theorem think_none_keeps_calls_cex :
    (think coreNoneW (.ok respW)).2 = .ok true ∧
    (think coreNoneW (.ok respW)).1.toolCalls = [tcW] ∧
    ([tcW] : List ToolCall) ≠ [] := by
  refine ⟨rfl, rfl, by decide⟩

/-- C6 amended: Think stores the proposed calls unconditionally (they are
never discarded, under any policy), and its boolean follows the policy:
none — true iff the content is non-empty; required — true always; auto —
true iff a call was proposed, else iff the content is non-empty. -/
theorem think_policy_decision (core : AgentCore) (r : LLMResponse) :
    (think core (.ok r)).1.toolCalls = r.toolCalls ∧
    (core.toolChoices = "none" → (think core (.ok r)).2 = .ok (r.content != "")) ∧
    (core.toolChoices = "required" → (think core (.ok r)).2 = .ok true) ∧
    (core.toolChoices = "auto" →
      (think core (.ok r)).2 = .ok (if r.toolCalls.isEmpty then r.content != "" else true)) := by
  refine ⟨?_, ?_, ?_, ?_⟩
  · simp only [think]
    repeat' split
    all_goals rfl
  · intro hc
    simp only [think]
    split <;> simp [hc]
  · intro hc
    by_cases hcalls : r.toolCalls = []
    · simp only [think]
      split <;> simp [hc, hcalls]
    · simp only [think]
      split <;> simp [hc, hcalls, List.length_pos]
  · intro hc
    by_cases hcalls : r.toolCalls = []
    · simp only [think]
      split <;> simp [hc, hcalls]
    · simp only [think]
      split <;> simp [hc, hcalls, List.length_pos, List.isEmpty_iff]

/-- Witness for the amended C6: the auto-policy default core with a reply
that proposes one call. -/
theorem think_policy_decision_witness :
    coreW.toolChoices = "auto" ∧
    (think coreW (.ok respW)).2 =
      .ok (if respW.toolCalls.isEmpty then respW.content != "" else true) :=
  ⟨rfl, (think_policy_decision coreW respW).2.2.2 rfl⟩

/-! ## Claim C7: the stuck detector -/

lemma stuckScan_iff (threshold : Nat) (target : String) :
    ∀ (l : List Message) (cnt : Nat), cnt < threshold →
      (stuckScan threshold target l cnt = true ↔
        threshold ≤ cnt + l.countP (isDupOf target)) := by
  intro l
  induction l with
  | nil =>
    intro cnt hcnt
    simp only [stuckScan, List.countP_nil]
    constructor
    · intro h
      simp at h
    · intro h
      omega
  | cons m rest ih =>
    intro cnt hcnt
    by_cases hm : isDupOf target m
    · rw [List.countP_cons_of_pos _ _ hm]
      simp only [stuckScan, if_pos hm]
      by_cases hthr : threshold ≤ cnt + 1
      · rw [if_pos hthr]
        constructor
        · intro _
          omega
        · intro _
          rfl
      · rw [if_neg hthr]
        rw [ih (cnt + 1) (by omega)]
        omega
    · rw [List.countP_cons_of_neg _ _ hm]
      simp only [stuckScan, if_neg hm]
      exact ih cnt hcnt

/-- C7 amended (code-side characterization): with a positive threshold,
`IsStuck` is true iff the memory holds at least two messages, the LAST
message — of any role, and its content may be the empty string — has
non-nil content, and that content equals the content of at least
DuplicateThreshold assistant-role messages among the earlier messages. -/
theorem isStuck_iff (c : AgentCore) (hthr : 1 ≤ c.duplicateThreshold) :
    isStuck c = true ↔
      2 ≤ c.memory.messages.length ∧
      ∃ lastMsg target, c.memory.messages.getLast? = some lastMsg ∧
        lastMsg.content = some target ∧
        c.duplicateThreshold ≤ c.memory.messages.dropLast.countP (isDupOf target) := by
  by_cases hlen : c.memory.messages.length < 2
  · simp only [isStuck, if_pos hlen]
    constructor
    · intro h
      simp at h
    · intro h
      omega
  · have hlen2 : 2 ≤ c.memory.messages.length := by omega
    have hne : c.memory.messages ≠ [] := by
      intro h
      rw [h] at hlen2
      simp at hlen2
    obtain ⟨lastMsg, hlast⟩ : ∃ m, c.memory.messages.getLast? = some m :=
      Option.isSome_iff_exists.mp (List.getLast?_isSome.mpr hne)
    rcases hcont : lastMsg.content with - | target
    · have hfalse : isStuck c = false := by
        simp only [isStuck, if_neg hlen, hlast, hcont]
      rw [hfalse]
      constructor
      · intro h
        simp at h
      · rintro ⟨-, lm, tg, hlm, htg, -⟩
        rw [hlast] at hlm
        injection hlm with hlm
        subst hlm
        rw [hcont] at htg
        simp at htg
    · have hs : isStuck c =
          stuckScan c.duplicateThreshold target c.memory.messages.dropLast.reverse 0 := by
        simp only [isStuck, if_neg hlen, hlast, hcont]
      rw [hs, stuckScan_iff c.duplicateThreshold target _ 0 (by omega), List.countP_reverse]
      constructor
      · intro h
        exact ⟨hlen2, lastMsg, target, hlast, hcont, by omega⟩
      · rintro ⟨-, lm, tg, hlm, htg, hcount⟩
        rw [hlast] at hlm
        injection hlm with hlm
        subst hlm
        rw [hcont] at htg
        injection htg with htg
        subst htg
        omega

/-- The property C7 asserts, modelled from the spec sentence: the latest
message AUTHORED BY THE ASSISTANT role has NON-EMPTY content byte-identical
to the content of at least DuplicateThreshold earlier assistant messages,
scanning backward from just before the latest one. -/
def specIsStuckClaim (c : AgentCore) : Bool :=
  let assistants := c.memory.messages.filter fun m => m.role == MessageRole.assistant
  match assistants.getLast? with
  | none => false
  | some m =>
    match m.content with
    | none => false
    | some target =>
      if target = "" then false
      else decide (c.duplicateThreshold ≤ assistants.dropLast.countP fun mm => mm.content == some target)

/-- A memory whose last message is user-authored but repeats earlier
assistant content. -/
def coreStuckCex : AgentCore :=
  { coreW with memory :=
      { messages := [Message.newAssistant "a", Message.newAssistant "a", Message.newUser "a"],
        maxMessages := 100 } }

/-- Counterexample to C7 as stated: the code keys the scan on the LAST
message of ANY role.  Here the last message is a user message repeating
the content of the two earlier assistant messages: the code reports stuck,
while the claim property (keyed on the latest assistant message, which has
only one earlier duplicate) is false. -/
theorem isStuck_claim_cex :
    isStuck coreStuckCex = true ∧ specIsStuckClaim coreStuckCex = false := by
  constructor
  · rfl
  · rfl

/-- Witness for the amended C7 at the concrete memory. -/
theorem isStuck_iff_witness :
    1 ≤ coreStuckCex.duplicateThreshold ∧
    (isStuck coreStuckCex = true ↔
      2 ≤ coreStuckCex.memory.messages.length ∧
      ∃ lastMsg target, coreStuckCex.memory.messages.getLast? = some lastMsg ∧
        lastMsg.content = some target ∧
        coreStuckCex.duplicateThreshold ≤
          coreStuckCex.memory.messages.dropLast.countP (isDupOf target)) :=
  ⟨by decide, isStuck_iff coreStuckCex (by decide)⟩

/-! ## Claim C4: special tools finish the run; the batch still completes -/

lemma Memory.addMessage_of_le (m : Memory) (msg : Message)
    (h : m.messages.length + 1 ≤ m.maxMessages) :
    m.addMessage msg = { m with messages := m.messages ++ [msg] } := by
  simp only [Memory.addMessage]
  rw [if_neg]
  intro hcon
  simp only [List.length_append, List.length_cons, List.length_nil] at hcon
  omega

lemma actLoop_spec (tc : ToolCollection) (parse : String → Except String Args) :
    ∀ (calls : List ToolCall) (core : AgentCore) (results : List String),
      core.memory.messages.length + calls.length ≤ core.memory.maxMessages →
      (actLoop tc parse calls core results).1.memory.messages =
          core.memory.messages ++ calls.map (fun call =>
            Message.newTool (callObservation tc parse call) call.function.name call.id) ∧
      (actLoop tc parse calls core results).2 =
          results ++ calls.map (callObservation tc parse) ∧
      (actLoop tc parse calls core results).1.specialToolNames = core.specialToolNames ∧
      (actLoop tc parse calls core results).1.state =
          (if calls.any (fun call => isSpecialTool core call.function.name) then
            AgentState.FINISHED else core.state) ∧
      (actLoop tc parse calls core results).1.memory.maxMessages = core.memory.maxMessages := by
  intro calls
  induction calls with
  | nil =>
    intro core results _
    simp [actLoop]
  | cons call rest ih =>
    intro core results hcap
    have hcap1 : core.memory.messages.length + 1 ≤ core.memory.maxMessages := by
      simp only [List.length_cons] at hcap
      omega
    simp only [actLoop, shouldFinishExecution, if_true]
    set msg := Message.newTool (callObservation tc parse call) call.function.name call.id with hmsg
    set core1 : AgentCore := { core with memory := core.memory.addMessage msg } with hcore1
    have hmem1 : core1.memory = { core.memory with messages := core.memory.messages ++ [msg] } := by
      rw [hcore1]
      exact core.memory.addMessage_of_le msg hcap1
    by_cases hsp : isSpecialTool core call.function.name
    · rw [if_pos (by simpa [hcore1] using hsp)]
      set core2 : AgentCore := { core1 with state := AgentState.FINISHED } with hcore2
      have hcap2 : core2.memory.messages.length + rest.length ≤ core2.memory.maxMessages := by
        rw [hcore2, hmem1]
        simp only [List.length_append, List.length_cons, List.length_nil]
        simp only [List.length_cons] at hcap
        omega
      obtain ⟨m1, r1, s1, st1, mm1⟩ := ih core2 (results ++ [callObservation tc parse call]) hcap2
      have hpred : ∀ n, isSpecialTool core2 n = isSpecialTool core n := by
        intro n
        rfl
      refine ⟨?_, ?_, ?_, ?_, ?_⟩
      · rw [m1, hcore2, hmem1]
        simp [List.append_assoc]
      · rw [r1]
        simp [List.append_assoc]
      · rw [s1]
      · rw [st1]
        simp only [List.any_cons, hsp, Bool.true_or, if_true]
        simp only [hpred]
        split <;> rfl
      · rw [mm1, hcore2, hmem1]
    · rw [if_neg (by simpa [hcore1] using hsp)]
      have hcap2 : core1.memory.messages.length + rest.length ≤ core1.memory.maxMessages := by
        rw [hmem1]
        simp only [List.length_append, List.length_cons, List.length_nil]
        simp only [List.length_cons] at hcap
        omega
      obtain ⟨m1, r1, s1, st1, mm1⟩ := ih core1 (results ++ [callObservation tc parse call]) hcap2
      have hpred : ∀ n, isSpecialTool core1 n = isSpecialTool core n := by
        intro n
        rfl
      refine ⟨?_, ?_, ?_, ?_, ?_⟩
      · rw [m1, hmem1]
        simp [List.append_assoc]
      · rw [r1]
        simp [List.append_assoc]
      · rw [s1]
      · rw [st1]
        have hspf : isSpecialTool core call.function.name = false := by
          simpa using hsp
        simp only [List.any_cons, hspf, Bool.false_or, hpred]
      · rw [mm1, hmem1]

/-- C4: when a batch of pending calls contains a special-tool call (judged
finishing — the default policy judges every special invocation finishing,
in particular every successful one), Act ends with state Finished, yet
every call of the batch — including those after the finishing one — is
still executed, its observation appended to Memory as a tool-role message
carrying the tool name and keyed by the originating call id, and the
result joins all observations.  The capacity hypothesis keeps the batch
within the Memory bound so the appended suffix is stated exactly. -/
theorem act_special_finishes (tc : ToolCollection) (parse : String → Except String Args)
    (core : AgentCore)
    (hcap : core.memory.messages.length + core.toolCalls.length ≤ core.memory.maxMessages)
    (hspecial : ∃ call ∈ core.toolCalls, isSpecialTool core call.function.name = true) :
    (act tc parse core).1.state = AgentState.FINISHED ∧
    (act tc parse core).1.memory.messages =
      core.memory.messages ++ core.toolCalls.map (fun call =>
        Message.newTool (callObservation tc parse call) call.function.name call.id) ∧
    (act tc parse core).2 =
      .ok (String.intercalate "\n\n" (core.toolCalls.map (callObservation tc parse))) := by
  have hne : core.toolCalls ≠ [] := by
    rintro h
    rw [h] at hspecial
    simp at hspecial
  have hlen : ¬core.toolCalls.length = 0 := by
    simpa [List.length_eq_zero] using hne
  simp only [act, if_neg hlen]
  obtain ⟨m1, r1, -, st1, -⟩ := actLoop_spec tc parse core.toolCalls core [] hcap
  have hany : core.toolCalls.any (fun call => isSpecialTool core call.function.name) = true := by
    rw [List.any_eq_true]
    obtain ⟨call, hmem, hsp⟩ := hspecial
    exact ⟨call, hmem, hsp⟩
  rw [hany, if_pos rfl] at st1
  rcases hal : actLoop tc parse core.toolCalls core [] with ⟨core1, results1⟩
  rw [hal] at m1 r1 st1
  simp only at m1 r1 st1
  rw [r1]
  exact ⟨st1, m1, by simp⟩

/-- The default tool collection of `NewToolCallAgent`: the terminate tool. -/
def colW : ToolCollection := ToolCollection.new [terminateTool]

/-- An argument decoder returning a successful terminate payload. -/
def parseStatusW : String → Except String Args :=
  fun _ => .ok [("status", GoValue.str "success")]

/-- A call to an unregistered tool name. -/
def tcFooW : ToolCall :=
  { id := "call_2", type := "function", function := { name := "foo", arguments := "" } }

/-- A running agent with a successful terminate call followed by another
pending call in the same batch. -/
def coreActW : AgentCore := { coreW with state := .RUNNING, toolCalls := [tcW, tcFooW] }

/-- Witness for C4: the terminate call finishes the run and the later call
in the batch is still executed and recorded. -/
theorem act_special_finishes_witness :
    coreActW.memory.messages.length + coreActW.toolCalls.length ≤ coreActW.memory.maxMessages ∧
    (∃ call ∈ coreActW.toolCalls, isSpecialTool coreActW call.function.name = true) ∧
    ((act colW parseStatusW coreActW).1.state = AgentState.FINISHED ∧
      (act colW parseStatusW coreActW).1.memory.messages =
        coreActW.memory.messages ++ coreActW.toolCalls.map (fun call =>
          Message.newTool (callObservation colW parseStatusW call) call.function.name call.id) ∧
      (act colW parseStatusW coreActW).2 =
        .ok (String.intercalate "\n\n"
          (coreActW.toolCalls.map (callObservation colW parseStatusW)))) :=
  ⟨by decide, ⟨tcW, by decide, by decide⟩,
   act_special_finishes colW parseStatusW coreActW (by decide) ⟨tcW, by decide, by decide⟩⟩

/-! ## Claim C5: unregistered tool names dispatch to a structured error -/

lemma tool_invalid_ne_empty (name : String) : ("Tool " ++ name ++ " is invalid") ≠ "" := by
  intro h
  have hl := congrArg String.length h
  simp only [String.length_append] at hl
  have h5 : ("Tool " : String).length = 5 := rfl
  have h11 : (" is invalid" : String).length = 11 := rfl
  have h0 : ("" : String).length = 0 := rfl
  rw [h5, h11, h0] at hl
  omega

/-- C5: dispatching an unregistered tool name yields the structured
"Tool NAME is invalid" result with a nil Go error, `ExecuteTool` turns it
into the formatted observation again with a nil Go error, and Act over a
batch containing the bad call completes normally — the Run is not aborted
and, under the default configuration (special set = terminate, and the
terminate tool registered, hence the bad name is not special), the agent
stays Running. -/
theorem unregistered_tool_dispatch (col : ToolCollection)
    (parse : String → Except String Args) (name : String) (args : Args)
    (core : AgentCore) (call : ToolCall)
    (hunreg : col.getTool name = none)
    (hterm : (col.getTool "terminate").isSome = true)
    (hspec : core.specialToolNames = ["terminate"])
    (hrun : core.state = AgentState.RUNNING)
    (hname : call.function.name = name) (hne : name ≠ "")
    (hparse : ∃ as, parse call.function.arguments = .ok as)
    (hcalls : core.toolCalls = [call]) :
    col.exec name args =
      ({ output := "", error := "Tool " ++ name ++ " is invalid", system := "" }, none) ∧
    executeTool col parse call = ("Error: " ++ ("Tool " ++ name ++ " is invalid"), none) ∧
    (act col parse core).1.state = AgentState.RUNNING ∧
    (act col parse core).2 = .ok ("Error: " ++ ("Tool " ++ name ++ " is invalid")) := by
  obtain ⟨as, has⟩ := hparse
  have hexec : col.exec name args =
      ({ output := "", error := "Tool " ++ name ++ " is invalid", system := "" }, none) := by
    simp [ToolCollection.exec, hunreg]
  have hexecAs : col.exec name as =
      ({ output := "", error := "Tool " ++ name ++ " is invalid", system := "" }, none) := by
    simp [ToolCollection.exec, hunreg]
  have het : executeTool col parse call = ("Error: " ++ ("Tool " ++ name ++ " is invalid"), none) := by
    simp only [executeTool, hname, has, hexecAs]
    rw [if_neg hne, if_pos (tool_invalid_ne_empty name)]
  have hobs : callObservation col parse call = "Error: " ++ ("Tool " ++ name ++ " is invalid") := by
    simp only [callObservation, het]
  have hneq : name ≠ "terminate" := by
    intro h
    rw [h] at hunreg
    rw [hunreg] at hterm
    simp at hterm
  have hns2 : core.specialToolNames.contains call.function.name = false := by
    rw [hspec, hname]
    simpa using hneq
  refine ⟨hexec, het, ?_, ?_⟩
  · simp only [act, hcalls]
    rw [if_neg (by simp : ¬(([call] : List ToolCall).length = 0))]
    simp only [actLoop, isSpecialTool, hns2, Bool.false_eq_true, not_false_eq_true, reduceIte]
    exact hrun
  · simp only [act, hcalls]
    rw [if_neg (by simp : ¬(([call] : List ToolCall).length = 0))]
    simp only [actLoop, isSpecialTool, hns2, Bool.false_eq_true, not_false_eq_true, reduceIte]
    rw [hobs]
    rfl

/-- An argument decoder that always succeeds with an empty map (what
`ParseToolArgs` produces on an empty payload). -/
def parseEmptyW : String → Except String Args := fun _ => .ok []

/-- A running agent whose single pending call names the unregistered tool. -/
def coreBadCallW : AgentCore := { coreW with state := .RUNNING, toolCalls := [tcFooW] }

/-- Witness for C5: dispatching the unregistered name "foo" against the
default terminate-only collection. -/
theorem unregistered_tool_dispatch_witness :
    colW.getTool "foo" = none ∧
    (colW.getTool "terminate").isSome = true ∧
    coreBadCallW.specialToolNames = ["terminate"] ∧
    coreBadCallW.state = AgentState.RUNNING ∧
    tcFooW.function.name = "foo" ∧
    ("foo" : String) ≠ "" ∧
    parseEmptyW tcFooW.function.arguments = .ok [] ∧
    coreBadCallW.toolCalls = [tcFooW] ∧
    (colW.exec "foo" [] =
        ({ output := "", error := "Tool " ++ "foo" ++ " is invalid", system := "" }, none) ∧
      executeTool colW parseEmptyW tcFooW =
        ("Error: " ++ ("Tool " ++ "foo" ++ " is invalid"), none) ∧
      (act colW parseEmptyW coreBadCallW).1.state = AgentState.RUNNING ∧
      (act colW parseEmptyW coreBadCallW).2 =
        .ok ("Error: " ++ ("Tool " ++ "foo" ++ " is invalid"))) :=
  ⟨rfl, rfl, rfl, rfl, rfl, by decide, rfl, rfl,
   unregistered_tool_dispatch colW parseEmptyW "foo" [] coreBadCallW tcFooW
     rfl rfl rfl rfl rfl (by decide) ⟨[], rfl⟩ rfl⟩

/-! ## Claim C8: flow step marking never reaches the plan (code bug) -/

/-- The planning-tool state right after the flow has created and activated
its fixed-template initial plan. -/
def ptAfterPlanW : PlanningTool :=
  (createInitialPlan PlanningTool.empty "demo request" "plan_w").1

/-- A stepper that finishes on its first step. -/
def stepFin : Stepper := fun c => ({ c with state := .FINISHED }, .ok "done")

/-- An idle agent with a step budget of 2. -/
def agentTwoW : Agent := { core := coreW, maxSteps := 2, currentStep := 0 }

/-- C8 fails on the code: `executeStep` passes `step_index` as a Go `int`,
but `markStep` type-asserts `float64`, so every mark_step the flow issues
errors out with "step_index is required" and is silently discarded.  On
the concrete initial plan: the in-progress mark leaves the tool state
(plans, active plan, persistence log) byte-identical; a full
`executeStep` whose executor succeeds still leaves the state untouched —
no step is ever marked InProgress/Completed/Blocked and nothing is
persisted — while the step result itself is returned as if all was well;
all four steps stay not_started. -/
theorem planning_flow_mark_step_bug :
    (ptAfterPlanW.markStep [("command", .str "mark_step"), ("step_index", .int 0),
        ("status", .str "in_progress")]).1 = ptAfterPlanW ∧
    (ptAfterPlanW.markStep [("command", .str "mark_step"), ("step_index", .int 0),
        ("status", .str "in_progress")]).2 =
      { output := "", error := "step_index is required for mark_step command", system := "" } ∧
    (executeStep ptAfterPlanW stepFin agentTwoW (mkStepInfo 0 "Analyze the request")).1.1 =
      ptAfterPlanW ∧
    (executeStep ptAfterPlanW stepFin agentTwoW (mkStepInfo 0 "Analyze the request")).2 =
      .ok "Step 1: done" ∧
    (ptAfterPlanW.plans.lookup "plan_w").map (fun p => p.steps.map (fun st => st.status)) =
      some [.notStarted, .notStarted, .notStarted, .notStarted] := by
  refine ⟨rfl, rfl, rfl, rfl, rfl⟩

end GoManus
